import Mathlib

/-!
Shallow embedding of `semver.go` (package `semver`): a restricted
semantic-version parser (`NewVersion`), renderer (`Version.String`),
equality predicates (`Version.Equal`, `Equal`) and the flag-registration
helper (`CreateFlagAndParse`).

Go strings are modelled as `List Char`; `uint64` values as `Nat` with
explicit `< 2 ^ 64` bounds where the code's width matters.
-/

namespace Semver

/-- The constant `numerals = "0123456789"` from the source. -/
def numerals : List Char := ['0', '1', '2', '3', '4', '5', '6', '7', '8', '9']

/-- The `Version` struct: `Major`, `Minor`, `Patch`, each a `uint64`
(modelled as `Nat`; parsing enforces the `< 2 ^ 64` bound). -/
structure Version where
  major : Nat
  minor : Nat
  patch : Nat
deriving DecidableEq, Repr

/-- Which of the three fields an error refers to. -/
inductive Field
  | major
  | minor
  | patch
deriving DecidableEq, Repr

/-- The error kinds of Go `strconv.ParseUint`: `ErrSyntax` and `ErrRange`. -/
inductive NumErrorKind
  | syntaxError
  | rangeError
deriving DecidableEq, Repr

/-- The errors `NewVersion` can return.  The first four are the
`errors.New` / `fmt.Errorf` messages built in `NewVersion` itself
(`invalidCharacters` and `leadingZero` carry the offending part's raw
text, as the Go messages embed it via `%q`); `numError` is the
`*strconv.NumError` returned unchanged from `strconv.ParseUint`, which
carries the input string and the syntax/range kind but does not name a
field. -/
inductive ParseError
  | emptyInput
  | wrongFieldCount
  | invalidCharacters (f : Field) (raw : List Char)
  | leadingZero (f : Field) (raw : List Char)
  | numError (raw : List Char) (kind : NumErrorKind)
deriving DecidableEq, Repr

/-- `containsOnly(s, compare)`: `strings.IndexFunc` returns `-1` iff no
rune of `s` falls outside `compare`, i.e. every rune of `s` is contained
in `compare` (vacuously true for the empty string). -/
def containsOnly (s compare : List Char) : Bool :=
  s.all (fun r => compare.contains r)

/-- `hasLeadingZeroes(s)`: `len(s) > 1 && s[0] == '0'`. -/
def hasLeadingZeroes (s : List Char) : Bool :=
  decide (s.length > 1) && (s.head? == some '0')

/-- Split off everything before the first occurrence of `sep`, returning
the prefix and the remainder after `sep`; `none` when `sep` does not
occur.  This is the single step of Go's `strings.genSplit`. -/
def splitFirst (sep : Char) : List Char → Option (List Char × List Char)
  | [] => none
  | c :: rest =>
    if c = sep then some ([], rest)
    else
      match splitFirst sep rest with
      | none => none
      | some (pre, post) => some (c :: pre, post)

/-- `strings.SplitN(s, sep, k + 1)` for a one-character separator:
`k` is the number of cuts still allowed; when no cut is allowed or the
separator no longer occurs, the remainder is the final part. -/
def splitNAux (sep : Char) : Nat → List Char → List (List Char)
  | 0, s => [s]
  | k + 1, s =>
    match splitFirst sep s with
    | none => [s]
    | some (pre, post) => pre :: splitNAux sep k post

/-- `strings.SplitN(s, ".", 3)` as used in `NewVersion`. -/
def splitN3 (s : List Char) : List (List Char) :=
  splitNAux '.' 2 s

/-- Numeric value of a digit character. -/
def digitVal (c : Char) : Nat := c.toNat - '0'.toNat

/-- Value of a decimal digit string, most significant digit first. -/
def digitsToNat (s : List Char) : Nat :=
  s.foldl (fun acc c => acc * 10 + digitVal c) 0

/-- Model of Go `strconv.ParseUint(s, 10, 64)`: the empty string and any
string containing a non-digit yield `ErrSyntax`; an all-digit string
whose value does not fit in 64 bits yields `ErrRange`; otherwise the
value is returned. -/
def parseUint64 (s : List Char) : Except NumErrorKind Nat :=
  if s = [] then .error .syntaxError
  else if s.all Char.isDigit then
    if digitsToNat s < 2 ^ 64 then .ok (digitsToNat s)
    else .error .rangeError
  else .error .syntaxError

/-- The per-field block of `NewVersion`, identical for major, minor and
patch: `containsOnly` check, `hasLeadingZeroes` check, then
`strconv.ParseUint(part, 10, 64)` whose error is returned unchanged. -/
def parseField (f : Field) (p : List Char) : Except ParseError Nat :=
  if ¬ containsOnly p numerals then .error (.invalidCharacters f p)
  else if hasLeadingZeroes p then .error (.leadingZero f p)
  else
    match parseUint64 p with
    | .error k => .error (.numError p k)
    | .ok n => .ok n

/-- `NewVersion`: empty-input check, `SplitN(s, ".", 3)`, field-count
check, then the three field blocks in order (major, minor, patch). -/
def NewVersion (s : List Char) : Except ParseError Version :=
  if s.length = 0 then .error .emptyInput
  else
    match splitN3 s with
    | [p0, p1, p2] =>
      match parseField .major p0 with
      | .error e => .error e
      | .ok major =>
        match parseField .minor p1 with
        | .error e => .error e
        | .ok minor =>
          match parseField .patch p2 with
          | .error e => .error e
          | .ok patch => .ok { major := major, minor := minor, patch := patch }
    | _ => .error .wrongFieldCount

/-- Decimal digits of `n`, least significant first, as produced by the
divide-by-ten loop of `strconv.AppendUint`. -/
def natDigitsRev (n : Nat) : List Char :=
  if n < 10 then [Char.ofNat (48 + n)]
  else Char.ofNat (48 + n % 10) :: natDigitsRev (n / 10)
decreasing_by exact Nat.div_lt_self (by omega) (by omega)

/-- Minimal decimal representation of `n`, most significant digit first. -/
def natToDecimal (n : Nat) : List Char := (natDigitsRev n).reverse

/-- `Version.String()`: `strconv.AppendUint` of each field with `'.'`
separators. -/
def Version.render (v : Version) : List Char :=
  natToDecimal v.major ++ '.' :: (natToDecimal v.minor ++ '.' :: natToDecimal v.patch)

/-- `(*Version).Equal`: field-by-field comparison with early `false`. -/
def Version.equal (v v2 : Version) : Bool :=
  if v.major ≠ v2.major then false
  else if v.minor ≠ v2.minor then false
  else if v.patch ≠ v2.patch then false
  else true

/-- Package-level `Equal(s1, s2)`: parse both strings, `false` on either
parse error, otherwise `(*Version).Equal`. -/
def Equal (s1 s2 : List Char) : Bool :=
  match NewVersion s1 with
  | .error _ => false
  | .ok v =>
    match NewVersion s2 with
    | .error _ => false
    | .ok v2 => v.equal v2

/-- Errors of `CreateFlagAndParse`: the `errors.New("Flags have been
parsed")` guard, or the error propagated unchanged from `NewVersion`. -/
inductive FlagError
  | alreadyParsed
  | versionError (e : ParseError)
deriving DecidableEq, Repr

/-- `CreateFlagAndParse(s)`: the state of the external flag facility
(`flag.Parsed()`) is passed explicitly.  If the facility is already
parsed the guard fails first; otherwise the version string is parsed and
its error propagated.  The subsequent flag registration, `flag.Parse()`
call and possible print-and-exit are process-level effects outside the
embedding; success is `.ok ()`. -/
def CreateFlagAndParse (flagParsed : Bool) (s : List Char) : Except FlagError Unit :=
  if flagParsed then .error .alreadyParsed
  else
    match NewVersion s with
    | .error e => .error (.versionError e)
    | .ok _ => .ok ()

/-! Section: Digit characters -/

lemma mem_numerals_isDigit {c : Char} (h : c ∈ numerals) : c.isDigit = true := by
  fin_cases h <;> decide

lemma mem_numerals_digitVal_lt {c : Char} (h : c ∈ numerals) : digitVal c < 10 := by
  fin_cases h <;> decide

lemma mem_numerals_ne_dot {c : Char} (h : c ∈ numerals) : c ≠ '.' := by
  fin_cases h <;> decide

lemma mem_numerals_ofNat {c : Char} (h : c ∈ numerals) :
    Char.ofNat (48 + digitVal c) = c := by
  fin_cases h <;> decide

lemma mem_numerals_digitVal_pos {c : Char} (h : c ∈ numerals) (h0 : c ≠ '0') :
    1 ≤ digitVal c := by
  fin_cases h <;> simp_all <;> decide

lemma ofNat_mem_numerals {d : Nat} (h : d < 10) : Char.ofNat (48 + d) ∈ numerals := by
  interval_cases d <;> decide

lemma ofNat_digitVal {d : Nat} (h : d < 10) : digitVal (Char.ofNat (48 + d)) = d := by
  interval_cases d <;> decide

lemma ofNat_ne_zero_char {d : Nat} (h : d < 10) (h1 : 1 ≤ d) : Char.ofNat (48 + d) ≠ '0' := by
  interval_cases d <;> decide

/-! Section: Decimal rendering -/

lemma natDigitsRev_ne_nil (n : Nat) : natDigitsRev n ≠ [] := by
  rw [natDigitsRev]
  split <;> simp

lemma natDigitsRev_mem {n : Nat} {c : Char} (h : c ∈ natDigitsRev n) : c ∈ numerals := by
  induction n using Nat.strong_induction_on with
  | _ n ih =>
    rw [natDigitsRev] at h
    split at h
    · simp at h
      subst h
      exact ofNat_mem_numerals (by omega)
    · rcases List.mem_cons.mp h with h | h
      · subst h
        exact ofNat_mem_numerals (Nat.mod_lt _ (by omega))
      · exact ih (n / 10) (Nat.div_lt_self (by omega) (by omega)) h

lemma natDigitsRev_getLast_ne_zero {n : Nat} (hn : 1 ≤ n) {c : Char}
    (h : (natDigitsRev n).getLast? = some c) : c ≠ '0' := by
  induction n using Nat.strong_induction_on with
  | _ n ih =>
    rw [natDigitsRev] at h
    split at h
    · simp at h
      subst h
      exact ofNat_ne_zero_char (by omega) hn
    · obtain ⟨d, t, hdt⟩ := List.exists_cons_of_ne_nil (natDigitsRev_ne_nil (n / 10))
      rw [hdt, List.getLast?_cons_cons, ← hdt] at h
      exact ih (n / 10) (Nat.div_lt_self (by omega) (by omega))
        ((Nat.one_le_div_iff (by omega)).mpr (by omega)) h

lemma digitsToNat_foldl_le (l : List Char) (acc : Nat) :
    acc ≤ l.foldl (fun a c => a * 10 + digitVal c) acc := by
  induction l generalizing acc with
  | nil => simp
  | cons c t ih =>
    simp only [List.foldl_cons]
    exact le_trans (by omega) (ih (acc * 10 + digitVal c))

lemma digitsToNat_append_single (q : List Char) (c : Char) :
    digitsToNat (q ++ [c]) = 10 * digitsToNat q + digitVal c := by
  simp [digitsToNat, List.foldl_append]
  ring

lemma natDigitsRev_of_lt {n : Nat} (h : n < 10) : natDigitsRev n = [Char.ofNat (48 + n)] := by
  rw [natDigitsRev]
  simp [h]

lemma natDigitsRev_of_ge {n : Nat} (h : ¬ n < 10) :
    natDigitsRev n = Char.ofNat (48 + n % 10) :: natDigitsRev (n / 10) := by
  conv_lhs => rw [natDigitsRev]
  simp [h]

lemma natToDecimal_of_lt {n : Nat} (h : n < 10) : natToDecimal n = [Char.ofNat (48 + n)] := by
  rw [natToDecimal, natDigitsRev_of_lt h]
  rfl

lemma natToDecimal_of_ge {n : Nat} (h : ¬ n < 10) :
    natToDecimal n = natToDecimal (n / 10) ++ [Char.ofNat (48 + n % 10)] := by
  rw [natToDecimal, natDigitsRev_of_ge h, List.reverse_cons, natToDecimal]

lemma digitsToNat_natToDecimal (n : Nat) : digitsToNat (natToDecimal n) = n := by
  induction n using Nat.strong_induction_on with
  | _ n ih =>
    by_cases h : n < 10
    · rw [natToDecimal_of_lt h]
      simp [digitsToNat, ofNat_digitVal h]
    · rw [natToDecimal_of_ge h, digitsToNat_append_single,
        ih (n / 10) (Nat.div_lt_self (by omega) (by omega)),
        ofNat_digitVal (Nat.mod_lt _ (by omega))]
      omega

lemma natToDecimal_ne_nil (n : Nat) : natToDecimal n ≠ [] := by
  rw [natToDecimal]
  simp [natDigitsRev_ne_nil]

lemma natToDecimal_mem {n : Nat} {c : Char} (h : c ∈ natToDecimal n) : c ∈ numerals := by
  rw [natToDecimal, List.mem_reverse] at h
  exact natDigitsRev_mem h

lemma natToDecimal_head_ne_zero {n : Nat} (hn : 1 ≤ n) {c : Char}
    (h : (natToDecimal n).head? = some c) : c ≠ '0' := by
  rw [natToDecimal, List.head?_reverse] at h
  exact natDigitsRev_getLast_ne_zero hn h

/-! Section: Validation helpers -/

lemma hasLeadingZeroes_iff (p : List Char) :
    hasLeadingZeroes p = true ↔ 1 < p.length ∧ p.head? = some '0' := by
  simp [hasLeadingZeroes]

lemma hasLeadingZeroes_eq_false_iff (p : List Char) :
    hasLeadingZeroes p = false ↔ ¬(1 < p.length ∧ p.head? = some '0') := by
  rw [← hasLeadingZeroes_iff]
  cases hasLeadingZeroes p <;> simp

lemma hasLeadingZeroes_nil : hasLeadingZeroes [] = false := rfl

lemma hasLeadingZeroes_natToDecimal (n : Nat) : hasLeadingZeroes (natToDecimal n) = false := by
  rw [hasLeadingZeroes_eq_false_iff]
  rintro ⟨hlen, hhead⟩
  rcases Nat.eq_zero_or_pos n with h0 | h1
  · subst h0
    rw [natToDecimal_of_lt (show (0 : Nat) < 10 by omega)] at hlen
    simp at hlen
  · exact natToDecimal_head_ne_zero h1 hhead rfl

lemma containsOnly_numerals_iff (p : List Char) :
    containsOnly p numerals = true ↔ ∀ c ∈ p, c ∈ numerals := by
  simp [containsOnly]

lemma digitsToNat_pos {p : List Char} (hd : ∀ c ∈ p, c ∈ numerals)
    (hhead : p.head? ≠ some '0') (hne : p ≠ []) :
    1 ≤ digitsToNat p := by
  cases p with
  | nil => exact absurd rfl hne
  | cons c t =>
    have hc0 : c ≠ '0' := by
      intro h
      exact hhead (by rw [h, List.head?_cons])
    have h1 : 1 ≤ digitVal c := mem_numerals_digitVal_pos (hd c (by simp)) hc0
    calc 1 ≤ digitVal c := h1
      _ = 0 * 10 + digitVal c := by ring
      _ ≤ digitsToNat (c :: t) := digitsToNat_foldl_le t _

/-- A nonempty digit string without leading zeroes is the canonical
decimal representation of its value. -/
lemma natToDecimal_digitsToNat {p : List Char} (hne : p ≠ [])
    (hd : ∀ c ∈ p, c ∈ numerals) (hz : hasLeadingZeroes p = false) :
    natToDecimal (digitsToNat p) = p := by
  induction p using List.reverseRecOn with
  | nil => exact absurd rfl hne
  | append_singleton q c ih =>
    have hc : c ∈ numerals := hd c (by simp)
    have hcval : digitVal c < 10 := mem_numerals_digitVal_lt hc
    rcases List.eq_nil_or_concat q with hq | ⟨r, d, hrd⟩
    · subst hq
      have hval : digitsToNat [c] = digitVal c := by
        simp [digitsToNat]
      rw [List.nil_append, hval, natToDecimal_of_lt hcval, mem_numerals_ofNat hc]
    · have hqne : q ≠ [] := by
        subst hrd
        simp
      have hdq : ∀ x ∈ q, x ∈ numerals := fun x hx => hd x (by simp [hx])
      have hheadq : q.head? ≠ some '0' := by
        intro hhq
        rw [hasLeadingZeroes_eq_false_iff] at hz
        apply hz
        constructor
        · rw [List.length_append]
          cases q with
          | nil => exact absurd rfl hqne
          | cons a t => simp
        · cases q with
          | nil => exact absurd rfl hqne
          | cons a t =>
            rw [List.cons_append, List.head?_cons]
            rw [List.head?_cons] at hhq
            exact hhq
      have hzq : hasLeadingZeroes q = false := by
        rw [hasLeadingZeroes_eq_false_iff]
        rintro ⟨_, hhq⟩
        exact hheadq hhq
      have hmpos : 1 ≤ digitsToNat q := digitsToNat_pos hdq hheadq hqne
      have hval : digitsToNat (q ++ [c]) = 10 * digitsToNat q + digitVal c :=
        digitsToNat_append_single q c
      have hge : ¬ digitsToNat (q ++ [c]) < 10 := by omega
      rw [natToDecimal_of_ge hge]
      have hdiv : digitsToNat (q ++ [c]) / 10 = digitsToNat q := by omega
      have hmod : digitsToNat (q ++ [c]) % 10 = digitVal c := by omega
      rw [hdiv, hmod, ih hqne hdq hzq, mem_numerals_ofNat hc]

/-! Section: Splitting -/

lemma splitFirst_eq_none {sep : Char} {s : List Char} (h : sep ∉ s) :
    splitFirst sep s = none := by
  induction s with
  | nil => rfl
  | cons c t ih =>
    rw [splitFirst]
    rw [List.mem_cons, not_or] at h
    rw [if_neg (fun hc => h.1 hc.symm), ih h.2]

lemma splitFirst_append {sep : Char} {pre : List Char} (post : List Char) (h : sep ∉ pre) :
    splitFirst sep (pre ++ sep :: post) = some (pre, post) := by
  induction pre with
  | nil =>
    rw [List.nil_append, splitFirst, if_pos rfl]
  | cons c t ih =>
    rw [List.mem_cons, not_or] at h
    rw [List.cons_append, splitFirst, if_neg (fun hc => h.1 hc.symm),
      ih h.2]

lemma splitFirst_some {sep : Char} {s pre post : List Char}
    (h : splitFirst sep s = some (pre, post)) :
    s = pre ++ sep :: post ∧ sep ∉ pre := by
  induction s generalizing pre with
  | nil => simp [splitFirst] at h
  | cons c t ih =>
    rw [splitFirst] at h
    split at h
    · rename_i hc
      subst hc
      injection h with h
      injection h with h1 h2
      subst h1
      subst h2
      simp
    · rename_i hc
      revert h
      match hrec : splitFirst sep t with
      | none => intro h; exact absurd h (by simp)
      | some (p, q) =>
        intro h
        injection h with h
        injection h with h1 h2
        subst h2
        obtain ⟨ht, hpre⟩ := ih hrec
        subst ht
        constructor
        · rw [← h1, List.cons_append]
        · rw [← h1, List.mem_cons, not_or]
          exact ⟨fun hx => hc hx.symm, hpre⟩

lemma splitNAux_zero (sep : Char) (s : List Char) : splitNAux sep 0 s = [s] := rfl

lemma splitNAux_succ_none {sep : Char} {s : List Char} (k : Nat)
    (h : splitFirst sep s = none) : splitNAux sep (k + 1) s = [s] := by
  rw [splitNAux, h]

lemma splitNAux_succ_some {sep : Char} {s pre post : List Char} (k : Nat)
    (h : splitFirst sep s = some (pre, post)) :
    splitNAux sep (k + 1) s = pre :: splitNAux sep k post := by
  rw [splitNAux, h]

lemma splitN3_of_parts {A B : List Char} (C : List Char)
    (hA : '.' ∉ A) (hB : '.' ∉ B) :
    splitN3 (A ++ '.' :: (B ++ '.' :: C)) = [A, B, C] := by
  rw [splitN3, splitNAux_succ_some 1 (splitFirst_append _ hA),
    splitNAux_succ_some 0 (splitFirst_append _ hB), splitNAux_zero]

lemma splitN3_three {s p0 p1 p2 : List Char} (h : splitN3 s = [p0, p1, p2]) :
    s = p0 ++ '.' :: (p1 ++ '.' :: p2) ∧ '.' ∉ p0 ∧ '.' ∉ p1 := by
  rw [splitN3] at h
  match h0 : splitFirst '.' s with
  | none => rw [splitNAux_succ_none 1 h0] at h; simp at h
  | some (pre, post) =>
    rw [splitNAux_succ_some 1 h0] at h
    obtain ⟨hs, hpre⟩ := splitFirst_some h0
    match h1 : splitFirst '.' post with
    | none => rw [splitNAux_succ_none 0 h1] at h; simp at h
    | some (pre2, post2) =>
      rw [splitNAux_succ_some 0 h1, splitNAux_zero] at h
      obtain ⟨hpost, hpre2⟩ := splitFirst_some h1
      injection h with e0 h
      injection h with e1 h
      injection h with e2 _
      subst e0
      subst e1
      subst e2
      subst hpost
      exact ⟨hs, hpre, hpre2⟩

lemma splitN3_length_le (s : List Char) : (splitN3 s).length ≤ 3 := by
  rw [splitN3]
  match h0 : splitFirst '.' s with
  | none => rw [splitNAux_succ_none 1 h0]; simp
  | some (pre, post) =>
    rw [splitNAux_succ_some 1 h0]
    match h1 : splitFirst '.' post with
    | none => rw [splitNAux_succ_none 0 h1]; simp
    | some (pre2, post2) =>
      rw [splitNAux_succ_some 0 h1, splitNAux_zero]
      simp

/-! Section: Field parsing -/

lemma all_isDigit_of_containsOnly {p : List Char} (h : containsOnly p numerals = true) :
    p.all Char.isDigit = true := by
  rw [containsOnly_numerals_iff] at h
  rw [List.all_eq_true]
  exact fun c hc => mem_numerals_isDigit (h c hc)

lemma parseField_ok_iff {f : Field} {p : List Char} {n : Nat} :
    parseField f p = Except.ok n ↔
      containsOnly p numerals = true ∧ hasLeadingZeroes p = false ∧
      p ≠ [] ∧ digitsToNat p = n ∧ n < 2 ^ 64 := by
  rw [parseField, parseUint64]
  by_cases h1 : containsOnly p numerals = true
  · rw [if_neg (by simp [h1])]
    by_cases h2 : hasLeadingZeroes p = true
    · rw [if_pos h2]
      simp [h2]
    · rw [if_neg h2]
      rw [Bool.not_eq_true] at h2
      by_cases h3 : p = []
      · subst h3
        simp
      · rw [if_neg h3, if_pos (all_isDigit_of_containsOnly h1)]
        by_cases h4 : digitsToNat p < 2 ^ 64
        · rw [if_pos h4]
          constructor
          · intro h
            injection h with h
            exact ⟨h1, h2, h3, h, by omega⟩
          · rintro ⟨-, -, -, h, -⟩
            rw [h]
        · rw [if_neg h4]
          constructor
          · intro h
            exact absurd h (by simp)
          · rintro ⟨-, -, -, h, hb⟩
            omega
  · rw [if_pos (by simp [h1])]
    constructor
    · intro h
      exact absurd h (by simp)
    · rintro ⟨h, -⟩
      exact absurd h h1

lemma parseField_ok_canonical {f : Field} {n : Nat} (h : n < 2 ^ 64) :
    parseField f (natToDecimal n) = Except.ok n := by
  rw [parseField_ok_iff]
  refine ⟨?_, hasLeadingZeroes_natToDecimal n, natToDecimal_ne_nil n,
    digitsToNat_natToDecimal n, h⟩
  rw [containsOnly_numerals_iff]
  exact fun c hc => natToDecimal_mem hc

lemma parseField_invalidChars {f : Field} {p : List Char}
    (h : containsOnly p numerals = false) :
    parseField f p = Except.error (ParseError.invalidCharacters f p) := by
  rw [parseField, if_pos (by simp [h])]

lemma parseField_leadingZero {f : Field} {p : List Char}
    (h1 : containsOnly p numerals = true) (h2 : hasLeadingZeroes p = true) :
    parseField f p = Except.error (ParseError.leadingZero f p) := by
  rw [parseField, if_neg (by simp [h1]), if_pos h2]

lemma parseField_nil (f : Field) :
    parseField f [] = Except.error (ParseError.numError [] NumErrorKind.syntaxError) := rfl

lemma parseField_range {f : Field} {p : List Char}
    (h1 : containsOnly p numerals = true) (h2 : hasLeadingZeroes p = false)
    (h3 : p ≠ []) (h4 : 2 ^ 64 ≤ digitsToNat p) :
    parseField f p = Except.error (ParseError.numError p NumErrorKind.rangeError) := by
  rw [parseField, if_neg (by simp [h1]), if_neg (by simp [h2]), parseUint64,
    if_neg h3, if_pos (all_isDigit_of_containsOnly h1), if_neg (by omega)]

lemma parseField_not_leadingZero {f f' : Field} {p r : List Char}
    (h1 : containsOnly p numerals = true) (h2 : hasLeadingZeroes p = false) :
    parseField f p ≠ Except.error (ParseError.leadingZero f' r) := by
  rw [parseField, if_neg (by simp [h1]), if_neg (by simp [h2])]
  match parseUint64 p with
  | .error k => simp
  | .ok n => simp

/-! Section: `NewVersion` structure -/

lemma newVersion_nil : NewVersion [] = Except.error ParseError.emptyInput := rfl

lemma newVersion_eq_of_split {s p0 p1 p2 : List Char} (hs : s.length ≠ 0)
    (h : splitN3 s = [p0, p1, p2]) :
    NewVersion s =
      (match parseField Field.major p0 with
      | .error e => .error e
      | .ok major =>
        match parseField Field.minor p1 with
        | .error e => .error e
        | .ok minor =>
          match parseField Field.patch p2 with
          | .error e => .error e
          | .ok patch => .ok { major := major, minor := minor, patch := patch }) := by
  rw [NewVersion, if_neg hs, h]

lemma newVersion_major_error {s p0 p1 p2 : List Char} {e : ParseError}
    (hs : s.length ≠ 0) (h : splitN3 s = [p0, p1, p2])
    (he : parseField Field.major p0 = .error e) :
    NewVersion s = .error e := by
  rw [newVersion_eq_of_split hs h, he]

lemma newVersion_minor_error {s p0 p1 p2 : List Char} {a : Nat} {e : ParseError}
    (hs : s.length ≠ 0) (h : splitN3 s = [p0, p1, p2])
    (ha : parseField Field.major p0 = .ok a)
    (he : parseField Field.minor p1 = .error e) :
    NewVersion s = .error e := by
  rw [newVersion_eq_of_split hs h, ha, he]

lemma newVersion_patch_error {s p0 p1 p2 : List Char} {a b : Nat} {e : ParseError}
    (hs : s.length ≠ 0) (h : splitN3 s = [p0, p1, p2])
    (ha : parseField Field.major p0 = .ok a)
    (hb : parseField Field.minor p1 = .ok b)
    (he : parseField Field.patch p2 = .error e) :
    NewVersion s = .error e := by
  rw [newVersion_eq_of_split hs h, ha, hb, he]

lemma newVersion_ok_of {s p0 p1 p2 : List Char} {a b c : Nat}
    (hs : s.length ≠ 0) (h : splitN3 s = [p0, p1, p2])
    (ha : parseField Field.major p0 = .ok a)
    (hb : parseField Field.minor p1 = .ok b)
    (hc : parseField Field.patch p2 = .ok c) :
    NewVersion s = .ok { major := a, minor := b, patch := c } := by
  rw [newVersion_eq_of_split hs h, ha, hb, hc]

lemma newVersion_ok_inv {s : List Char} {v : Version} (h : NewVersion s = .ok v) :
    s.length ≠ 0 ∧ ∃ p0 p1 p2, splitN3 s = [p0, p1, p2] ∧
      parseField Field.major p0 = .ok v.major ∧
      parseField Field.minor p1 = .ok v.minor ∧
      parseField Field.patch p2 = .ok v.patch := by
  rw [NewVersion] at h
  split at h
  · exact absurd h (by simp)
  · rename_i hs
    split at h
    · rename_i p0 p1 p2 hsplit
      split at h
      · exact absurd h (by simp)
      · rename_i a ha
        split at h
        · exact absurd h (by simp)
        · rename_i b hb
          split at h
          · exact absurd h (by simp)
          · rename_i c hc
            injection h with h
            subst h
            exact ⟨hs, p0, p1, p2, hsplit, ha, hb, hc⟩
    · exact absurd h (by simp)

lemma newVersion_wrongFieldCount {s : List Char} (hs : s ≠ [])
    (h : (splitN3 s).length < 3) : NewVersion s = .error .wrongFieldCount := by
  have hs' : s.length ≠ 0 := by
    cases s with
    | nil => exact absurd rfl hs
    | cons c t => simp
  rw [NewVersion, if_neg hs']
  rcases h3 : splitN3 s with _ | ⟨a, _ | ⟨b, _ | ⟨c, _ | ⟨d, t⟩⟩⟩⟩ <;>
    first
    | rfl
    | (rw [h3] at h; simp at h)

/-! Section: Rendering -/

lemma dot_not_mem_natToDecimal (n : Nat) : '.' ∉ natToDecimal n :=
  fun h => mem_numerals_ne_dot (natToDecimal_mem h) rfl

lemma splitN3_render (v : Version) :
    splitN3 (Version.render v) =
      [natToDecimal v.major, natToDecimal v.minor, natToDecimal v.patch] := by
  rw [Version.render]
  exact splitN3_of_parts _ (dot_not_mem_natToDecimal _) (dot_not_mem_natToDecimal _)

lemma render_length_ne_zero (v : Version) : (Version.render v).length ≠ 0 := by
  rw [Version.render]
  simp

/-! Section: claims -/

/-- C1: for all `uint64` values `a, b, c`, parsing the rendered string of
`{major := a, minor := b, patch := c}` succeeds and returns a version
whose three fields equal `a, b, c`. -/
theorem parse_render_roundtrip (a b c : Nat)
    (ha : a < 2 ^ 64) (hb : b < 2 ^ 64) (hc : c < 2 ^ 64) :
    NewVersion (Version.render ⟨a, b, c⟩) = .ok ⟨a, b, c⟩ :=
  newVersion_ok_of (render_length_ne_zero _) (splitN3_render ⟨a, b, c⟩)
    (parseField_ok_canonical ha) (parseField_ok_canonical hb)
    (parseField_ok_canonical hc)

/-- Witness for C1 at `a = 1, b = 2, c = 3`. -/
theorem parse_render_roundtrip_witness :
    NewVersion (Version.render ⟨1, 2, 3⟩) = .ok ⟨1, 2, 3⟩ :=
  parse_render_roundtrip 1 2 3 (by norm_num) (by norm_num) (by norm_num)

/-- C2 counterexample: on `"1..3"` (split parts `"1"`, `""`, `"3"`), the
code fails with the `strconv.ParseUint` syntax error for the empty minor
part, not with the `InvalidCharacters` error the claim predicts: the
`containsOnly` check passes vacuously on an empty part. -/
theorem empty_part_counterexample :
    NewVersion ['1', '.', '.', '3'] =
      .error (.numError [] .syntaxError) ∧
    ParseError.numError [] NumErrorKind.syntaxError ≠
      ParseError.invalidCharacters Field.minor [] :=
  ⟨rfl, by simp⟩

/-- C2 (amended): for a non-empty input splitting into exactly three
parts, some of which is empty, where every part passes the digits-only
check and each part has no leading zeroes and fits in 64 bits, parsing
fails with the `ParseUint` syntax error carrying the empty raw text (the
error produced at the first empty field; it does not name the field). -/
theorem empty_part_syntax_error (s p0 p1 p2 : List Char) (hs : s ≠ [])
    (hsplit : splitN3 s = [p0, p1, p2])
    (h0 : containsOnly p0 numerals = true) (h1 : containsOnly p1 numerals = true)
    (h2 : containsOnly p2 numerals = true)
    (hz0 : hasLeadingZeroes p0 = false) (hz1 : hasLeadingZeroes p1 = false)
    (hz2 : hasLeadingZeroes p2 = false)
    (hb0 : digitsToNat p0 < 2 ^ 64) (hb1 : digitsToNat p1 < 2 ^ 64)
    (hb2 : digitsToNat p2 < 2 ^ 64)
    (he : p0 = [] ∨ p1 = [] ∨ p2 = []) :
    NewVersion s = .error (.numError [] .syntaxError) := by
  have hs' : s.length ≠ 0 := by
    cases s with
    | nil => exact absurd rfl hs
    | cons c t => simp
  by_cases e0 : p0 = []
  · subst e0
    exact newVersion_major_error hs' hsplit (parseField_nil _)
  · have ok0 : parseField Field.major p0 = .ok (digitsToNat p0) :=
      parseField_ok_iff.mpr ⟨h0, hz0, e0, rfl, hb0⟩
    by_cases e1 : p1 = []
    · subst e1
      exact newVersion_minor_error hs' hsplit ok0 (parseField_nil _)
    · have ok1 : parseField Field.minor p1 = .ok (digitsToNat p1) :=
        parseField_ok_iff.mpr ⟨h1, hz1, e1, rfl, hb1⟩
      have e2 : p2 = [] := by
        rcases he with h | h | h
        · exact absurd h e0
        · exact absurd h e1
        · exact h
      subst e2
      exact newVersion_patch_error hs' hsplit ok0 ok1 (parseField_nil _)

/-- Witness for C2 (amended) at `"1..3"`. -/
theorem empty_part_syntax_error_witness :
    NewVersion ['1', '.', '.', '3'] = .error (.numError [] .syntaxError) :=
  empty_part_syntax_error ['1', '.', '.', '3'] ['1'] [] ['3'] (by decide) rfl
    (by decide) (by decide) (by decide) (by decide) (by decide) (by decide)
    (by decide) (by decide) (by decide) (Or.inr (Or.inl rfl))

/-- C3: splitting yields at most three parts, extra dots stay in the
third part (whenever the split yields `[p0, p1, p2]`, the first two
parts are dot-free and concatenating them with `'.'` recovers the
input); in particular `"1.2.3.4"` splits into `"1"`, `"2"`, `"3.4"` and
parsing fails with `InvalidCharacters` on the patch field carrying
`"3.4"`, not with `WrongFieldCount`. -/
theorem split_absorbs_extra_dots :
    (∀ s p0 p1 p2 : List Char, splitN3 s = [p0, p1, p2] →
      s = p0 ++ '.' :: (p1 ++ '.' :: p2) ∧ '.' ∉ p0 ∧ '.' ∉ p1) ∧
    (∀ s : List Char, (splitN3 s).length ≤ 3) ∧
    splitN3 ['1', '.', '2', '.', '3', '.', '4'] = [['1'], ['2'], ['3', '.', '4']] ∧
    NewVersion ['1', '.', '2', '.', '3', '.', '4'] =
      .error (.invalidCharacters .patch ['3', '.', '4']) :=
  ⟨fun _ _ _ _ h => splitN3_three h, splitN3_length_le, rfl, rfl⟩

/-- Witness for C3 at `"1.2.3.4"`. -/
theorem split_absorbs_extra_dots_witness :
    ['1', '.', '2', '.', '3', '.', '4'] =
      ['1'] ++ '.' :: (['2'] ++ '.' :: ['3', '.', '4']) ∧
    '.' ∉ ['1'] ∧ '.' ∉ ['2'] :=
  split_absorbs_extra_dots.1 ['1', '.', '2', '.', '3', '.', '4']
    ['1'] ['2'] ['3', '.', '4'] rfl

/-- C4: string-based `Equal` returns `true` exactly when both strings
parse and the resulting versions are equal, and returns `false` (never a
distinct error value: its type is `Bool`) whenever either string fails
to parse. -/
theorem equal_strings_spec (s1 s2 : List Char) :
    (Equal s1 s2 = true ↔ ∃ v1 v2, NewVersion s1 = .ok v1 ∧
      NewVersion s2 = .ok v2 ∧ Version.equal v1 v2 = true) ∧
    (∀ e, NewVersion s1 = .error e → Equal s1 s2 = false) ∧
    (∀ e, NewVersion s2 = .error e → Equal s1 s2 = false) := by
  refine ⟨?_, ?_, ?_⟩
  · cases h1 : NewVersion s1 with
    | error e => simp [Equal, h1]
    | ok v1 =>
      cases h2 : NewVersion s2 with
      | error e => simp [Equal, h1, h2]
      | ok v2 => simp [Equal, h1, h2]
  · intro e h1
    simp [Equal, h1]
  · intro e h2
    cases h1 : NewVersion s1 with
    | error e1 => simp [Equal, h1]
    | ok v1 => simp [Equal, h1, h2]

/-- Witness for C4: `Equal "bad" "1.2.3"` is `false`, via the
first-argument parse failure. -/
theorem equal_strings_spec_witness :
    Equal ['b', 'a', 'd'] ['1', '.', '2', '.', '3'] = false :=
  (equal_strings_spec ['b', 'a', 'd'] ['1', '.', '2', '.', '3']).2.1
    .wrongFieldCount rfl

/-- C5: for an all-digit part, the field check fails with `LeadingZero`
(carrying the part) iff the part's length exceeds 1 and its first
character is `'0'`; `"0.0.0"` parses to `{0,0,0}` and `"1.02.3"` fails
with `LeadingZero` on minor. -/
theorem leading_zero_spec :
    (∀ (f : Field) (p : List Char), containsOnly p numerals = true →
      (parseField f p = .error (.leadingZero f p) ↔
        1 < p.length ∧ p.head? = some '0')) ∧
    NewVersion ['0', '.', '0', '.', '0'] = .ok ⟨0, 0, 0⟩ ∧
    NewVersion ['1', '.', '0', '2', '.', '3'] =
      .error (.leadingZero .minor ['0', '2']) := by
  refine ⟨?_, rfl, rfl⟩
  intro f p hco
  by_cases hz : hasLeadingZeroes p = true
  · rw [parseField_leadingZero hco hz]
    rw [hasLeadingZeroes_iff] at hz
    simp [hz]
  · rw [Bool.not_eq_true] at hz
    constructor
    · intro h
      exact absurd h (parseField_not_leadingZero hco hz)
    · intro h
      rw [← hasLeadingZeroes_iff, hz] at h
      cases h

/-- Witness for C5 at the minor part `"02"`. -/
theorem leading_zero_spec_witness :
    parseField Field.minor ['0', '2'] =
      .error (.leadingZero Field.minor ['0', '2']) :=
  (leading_zero_spec.1 Field.minor ['0', '2'] (by decide)).mpr (by decide)

/-- C6: `Version.Equal` returns `true` iff major, minor and patch are
pairwise equal. -/
theorem version_equal_iff (v v2 : Version) :
    Version.equal v v2 = true ↔
      v.major = v2.major ∧ v.minor = v2.minor ∧ v.patch = v2.patch := by
  rw [Version.equal]
  split_ifs with h1 h2 h3 <;> simp_all

/-- C7: parsing the empty string fails with `EmptyInput`, and parsing
any non-empty string whose split yields fewer than three parts fails
with `WrongFieldCount`; in particular `"1.2"`. -/
theorem empty_and_field_count_errors (s : List Char) (hne : s ≠ [])
    (hlt : (splitN3 s).length < 3) :
    NewVersion [] = .error .emptyInput ∧
    NewVersion s = .error .wrongFieldCount ∧
    NewVersion ['1', '.', '2'] = .error .wrongFieldCount :=
  ⟨rfl, newVersion_wrongFieldCount hne hlt, rfl⟩

/-- Witness for C7 at `"1.2"`. -/
theorem empty_and_field_count_errors_witness :
    NewVersion [] = .error ParseError.emptyInput ∧
    NewVersion ['1', '.', '2'] = .error ParseError.wrongFieldCount ∧
    NewVersion ['1', '.', '2'] = .error ParseError.wrongFieldCount :=
  empty_and_field_count_errors ['1', '.', '2'] (by decide) (by decide)

/-- C8: an all-digit part without leading zeroes parses as an unsigned
base-10 integer with 64-bit range: any such part whose value is below
`2 ^ 64` is accepted with that value (in particular every value up to
`2 ^ 64 - 1` is accepted, via its canonical digits), and a part whose
value reaches `2 ^ 64` fails with the `ParseUint` range error. -/
theorem uint64_range_spec (f : Field) :
    (∀ p : List Char, p ≠ [] → containsOnly p numerals = true →
      hasLeadingZeroes p = false → digitsToNat p < 2 ^ 64 →
      parseField f p = .ok (digitsToNat p)) ∧
    (∀ p : List Char, p ≠ [] → containsOnly p numerals = true →
      hasLeadingZeroes p = false → 2 ^ 64 ≤ digitsToNat p →
      parseField f p = .error (.numError p .rangeError)) ∧
    (∀ n : Nat, n < 2 ^ 64 → parseField f (natToDecimal n) = .ok n) :=
  ⟨fun _ hne hco hz hb => parseField_ok_iff.mpr ⟨hco, hz, hne, rfl, hb⟩,
   fun _ hne hco hz hb => parseField_range hco hz hne hb,
   fun _ hb => parseField_ok_canonical hb⟩

/-- Witness for C8: `"5"` parses to 5; the 20-digit string for `2 ^ 64`
overflows with the range error. -/
theorem uint64_range_spec_witness :
    parseField Field.major ['5'] = .ok 5 ∧
    parseField Field.major
        ['1', '8', '4', '4', '6', '7', '4', '4', '0', '7', '3', '7', '0',
          '9', '5', '5', '1', '6', '1', '6'] =
      .error (.numError
        ['1', '8', '4', '4', '6', '7', '4', '4', '0', '7', '3', '7', '0',
          '9', '5', '5', '1', '6', '1', '6'] .rangeError) :=
  ⟨(uint64_range_spec Field.major).1 ['5'] (by decide) (by decide) (by decide)
      (by decide),
   (uint64_range_spec Field.major).2.1 _ (by decide) (by decide) (by decide)
      (by decide)⟩

/-- C9: when the external flag facility is already in the `Parsed`
state, `CreateFlagAndParse` fails with the already-parsed error for
every input string, including invalid ones — the guard runs before the
version string is parsed. -/
theorem flag_already_parsed (s : List Char) :
    CreateFlagAndParse true s = .error .alreadyParsed := rfl

/-- C10: for every string the parser accepts, rendering the resulting
version reproduces the input exactly. -/
theorem render_parse_exact (s : List Char) (v : Version)
    (h : NewVersion s = .ok v) : Version.render v = s := by
  obtain ⟨hs, p0, p1, p2, hsplit, ha, hb, hc⟩ := newVersion_ok_inv h
  obtain ⟨hco0, hz0, hne0, hval0, -⟩ := parseField_ok_iff.mp ha
  obtain ⟨hco1, hz1, hne1, hval1, -⟩ := parseField_ok_iff.mp hb
  obtain ⟨hco2, hz2, hne2, hval2, -⟩ := parseField_ok_iff.mp hc
  have e0 : natToDecimal v.major = p0 := by
    rw [← hval0]
    exact natToDecimal_digitsToNat hne0 ((containsOnly_numerals_iff p0).mp hco0) hz0
  have e1 : natToDecimal v.minor = p1 := by
    rw [← hval1]
    exact natToDecimal_digitsToNat hne1 ((containsOnly_numerals_iff p1).mp hco1) hz1
  have e2 : natToDecimal v.patch = p2 := by
    rw [← hval2]
    exact natToDecimal_digitsToNat hne2 ((containsOnly_numerals_iff p2).mp hco2) hz2
  rw [Version.render, e0, e1, e2, (splitN3_three hsplit).1]

/-- Witness for C10 at `"1.2.3"`. -/
theorem render_parse_exact_witness :
    Version.render ⟨1, 2, 3⟩ = ['1', '.', '2', '.', '3'] :=
  render_parse_exact ['1', '.', '2', '.', '3'] ⟨1, 2, 3⟩ rfl

end Semver
